import Mathlib

/-!
Shallow embedding of the repository-scanning and bulk-commit workflow of the
scripts repository (src/file_tools.py and src/backup_utils.py), together with
theorems settling the frozen claims about it.
-/

namespace FileTools

/-- Equality on Except values is decidable when it is on both components. -/
instance exceptDecEq {ε α : Type} [DecidableEq ε] [DecidableEq α] :
    DecidableEq (Except ε α) := fun x y =>
  match x, y with
  | .ok a, .ok b =>
    if h : a = b then isTrue (by rw [h])
    else isFalse (by intro hc; cases hc; exact h rfl)
  | .error a, .error b =>
    if h : a = b then isTrue (by rw [h])
    else isFalse (by intro hc; cases hc; exact h rfl)
  | .ok _, .error _ => isFalse (by intro hc; cases hc)
  | .error _, .ok _ => isFalse (by intro hc; cases hc)

/-- Characters removed by the Python method strip called with no arguments,
restricted to the ASCII whitespace characters that can occur in the inputs
handled here. -/
def isPyWhitespace (c : Char) : Bool :=
  c = ' ' || c = '\t' || c = '\n' || c = '\r' || c = '\x0b' || c = '\x0c'

/-- Model of the Python method strip with no arguments: drop leading and
trailing whitespace characters. -/
def pyStrip (s : String) : String :=
  ⟨((s.data.dropWhile isPyWhitespace).reverse.dropWhile isPyWhitespace).reverse⟩

/-- Model of the Python method lower, restricted to ASCII input. -/
def pyLower (s : String) : String :=
  ⟨s.data.map Char.toLower⟩

/-- Model of the Python method split with the newline character as separator:
the fields between separators, keeping empty fields, so the result always has
one more field than the number of newline characters. -/
def splitOnNl : List Char → List (List Char)
| [] => [[]]
| c :: cs =>
  if c = '\n' then [] :: splitOnNl cs
  else
    match splitOnNl cs with
    | [] => [[c]]
    | l :: ls => (c :: l) :: ls

def pySplitNl (s : String) : List String :=
  (splitOnNl s.data).map (fun l => ⟨l⟩)

/-- Helper for the Python method split with no arguments: words separated by
runs of whitespace, the accumulator holding the current word reversed. -/
def pyWordsAux : List Char → List Char → List (List Char)
| [], acc => if acc = [] then [] else [acc.reverse]
| c :: cs, acc =>
  if isPyWhitespace c then
    if acc = [] then pyWordsAux cs [] else acc.reverse :: pyWordsAux cs []
  else pyWordsAux cs (c :: acc)

/-- Model of the Python method split with no arguments: maximal runs of
non-whitespace characters, with no empty words. -/
def pySplitWs (s : String) : List String :=
  (pyWordsAux s.data []).map (fun l => ⟨l⟩)

/-- Decimal value accumulated left to right; none on the first non-digit. -/
def decDigitsAux : List Char → Nat → Option Nat
| [], acc => some acc
| c :: cs, acc =>
  if c.isDigit then decDigitsAux cs (acc * 10 + (c.toNat - 48)) else none

/-- Model of the Python int conversion on a whitespace-free token: an optional
sign followed by a non-empty run of decimal digits; anything else raises
ValueError, modelled as none. Underscore digit grouping and non-ASCII digits
accepted by Python are not modelled; no input considered here contains them. -/
def pyInt (s : String) : Option Int :=
  match s.data with
  | '+' :: cs => if cs = [] then none else (decDigitsAux cs 0).map (fun n => (n : Int))
  | '-' :: cs => if cs = [] then none else (decDigitsAux cs 0).map (fun n => -(n : Int))
  | cs => if cs = [] then none else (decDigitsAux cs 0).map (fun n => (n : Int))

/-- Outcome of one invocation of git status with the porcelain flag for a
repository, as observed by the Python subprocess layer: either the process ran
to completion with an exit status and captured stdout, or spawning raised a
SubprocessError, or spawning raised some other exception such as an OSError
when the tool binary is missing. -/
inductive GitStatus where
| completed (returncode : Int) (stdout : String)
| subprocessError (msg : String)
| osError (msg : String)

/-- True exactly on the osError case. -/
def GitStatus.isOsError : GitStatus → Bool
| .osError _ => true
| _ => false

/-- Line 164 of file_tools.py and line 11 of backup_utils.py: Python truthiness
of the stripped status text, true exactly when it is non-empty. -/
def isDirtyText (out : String) : Bool :=
  decide (pyStrip out ≠ "")

/-- Function check_uncommitted_changes of backup_utils.py, lines 4 to 11:
subprocess.check_output raises CalledProcessError exactly when the process
exits non-zero, and that exception is caught and False returned; when the exit
status is zero the stripped stdout decides the answer. Any other exception is
not caught and propagates, modelled as the error case. -/
def check_uncommitted_changes : GitStatus → Except String Bool
| .completed rc out => if rc = 0 then .ok (isDirtyText out) else .ok false
| .subprocessError m => .error m
| .osError m => .error m

/-- One repository as discovered by the glob for .git directories: its path,
the outcome of its status invocation, and the behaviour of the git add and git
commit invocations used later by the commit loop, where an error value models
a CalledProcessError raised because the command was run with check set. -/
structure Repo where
  path : String
  git : GitStatus
  stage : Except String Unit
  commitRes : Except String Unit

/-- Method find_uncommitted_changes of file_tools.py, lines 154 to 169: loop
over the discovered repositories. The status command is run by subprocess.run
without check, so a process that ran to completion never raises regardless of
its exit status and classification reads only stdout; a SubprocessError is
caught, logged, and the loop continues without recording the repository; any
other exception is not caught and aborts the whole scan. A dirty repository is
recorded with its raw, untrimmed stdout. -/
def scanRepos : List Repo → Except String (List (String × String))
| [] => .ok []
| ⟨p, .completed _ out, _, _⟩ :: rs =>
  (scanRepos rs).map (fun rest => if isDirtyText out then (p, out) :: rest else rest)
| ⟨_, .subprocessError _, _, _⟩ :: rs => scanRepos rs
| ⟨_, .osError m, _, _⟩ :: _ => .error m

/-- The filesystem as one scan sees it: whether the scan root exists and the
repositories beneath it in discovery order. -/
structure World where
  rootExists : Bool
  repos : List Repo

/-- The pathlib glob for .git directories at line 154: directory enumeration
errors on a missing or inaccessible root are swallowed inside the glob
machinery, so a nonexistent root yields no matches rather than an exception. -/
def globGitDirs (w : World) : List Repo :=
  if w.rootExists then w.repos else []

/-- Method find_uncommitted_changes composed with discovery. -/
def find_uncommitted_changes (w : World) : Except String (List (String × String)) :=
  scanRepos (globGitDirs w)

/-- Commands issued to git by the commit loop of commit_all_changes. -/
inductive GitCmd where
| add (repo : String)
| commit (repo : String) (msg : String)
deriving DecidableEq

/-- Lines 240 and 241 of file_tools.py: the commit message, built once per run
from the local date formatted as YYYYMMDD followed by a space and the fixed
suffix. -/
def commit_msg (date_str : String) : String :=
  date_str ++ " commit for transfer"

/-- Per-repository result recorded by the commit loop. -/
inductive RepoOutcome where
| committed
| stageFailed (msg : String)
| commitFailed (msg : String)
deriving DecidableEq

/-- Lines 245 to 252 of file_tools.py: one iteration of the commit loop. The
try block covers both invocations and each is run with check set, so a failing
git add raises before git commit is ever attempted; the exception is caught,
logged, and the loop moves on. The first component is the trace of git
commands actually issued for this repository. -/
def commitOne (msg p : String) (stage commitRes : Except String Unit) :
    List GitCmd × RepoOutcome :=
  match stage with
  | .error e => ([.add p], .stageFailed e)
  | .ok _ =>
    match commitRes with
    | .error e => ([.add p, .commit p msg], .commitFailed e)
    | .ok _ => ([.add p, .commit p msg], .committed)

/-- The commit loop over the selected repositories, threading the shared
message and collecting the issued commands and per-repository outcomes. -/
def commitLoop (msg : String) (beh : String → Except String Unit × Except String Unit) :
    List String → List GitCmd × List (String × RepoOutcome)
| [] => ([], [])
| p :: ps =>
  ((commitOne msg p (beh p).1 (beh p).2).1 ++ (commitLoop msg beh ps).1,
   (p, (commitOne msg p (beh p).1 (beh p).2).2) :: (commitLoop msg beh ps).2)

/-- Method commit_all_changes, lines 240 to 252: compute the message once from
the date, then run the loop over the selected repositories. -/
def commit_all (date_str : String)
    (beh : String → Except String Unit × Except String Unit)
    (repos : List String) : List GitCmd × List (String × RepoOutcome) :=
  commitLoop (commit_msg date_str) beh repos

/-- Tool behaviour of a repository looked up by path, defaulting to success
for paths not present in the world. -/
def behOf (w : World) (p : String) : Except String Unit × Except String Unit :=
  match w.repos.find? (fun r => r.path == p) with
  | some r => (r.stage, r.commitRes)
  | none => (.ok (), .ok ())

/-- Entry point main with the commit-all flag in non-interactive mode, lines
323 to 346 of file_tools.py: the scan runs, then the commit loop over every
dirty repository. The function main never calls sys.exit, so the process exits
with status 0 unless an uncaught exception escapes, which is modelled as exit
status 1; failures inside the commit loop are caught per repository and never
escape. -/
def mainCommitAll (date_str : String) (w : World) : Nat :=
  match find_uncommitted_changes w with
  | .error _ => 1
  | .ok dirty =>
    let _ := commit_all date_str (behOf w) (dirty.map Prod.fst)
    0

/-- Lines 186 to 190 of file_tools.py: the one-line preview shown for each
repository, the first newline-separated field of the raw status text with
surrounding whitespace stripped, and an ellipsis appended when splitting the
raw text on newlines yields more than one field. -/
def statusPreview (raw : String) : String :=
  let first := pyStrip ((pySplitNl raw).headD "")
  if (pySplitNl raw).length > 1 then first ++ " ..." else first

/-- Line 202 of file_tools.py: the list comprehension converting every
whitespace-separated token of the choice with int; a single bad token raises
ValueError, modelled as none. -/
def parseInts : List String → Option (List Int)
| [] => some []
| t :: ts =>
  match pyInt t, parseInts ts with
  | some n, some ns => some (n :: ns)
  | _, _ => none

/-- Line 202 of file_tools.py, the subtraction of one from every converted
token, turning the 1-based input indices into 0-based ones. -/
def parseIndices (choice : String) : Option (List Int) :=
  (parseInts (pySplitWs choice)).map (List.map (fun n => n - 1))

/-- Line 203 of file_tools.py: the excluded repositories, those at a 0-based
index that lies inside the list bounds; out-of-range values contribute
nothing. -/
def ignoredRepos (repos : List String) (idxs : List Int) : List String :=
  idxs.filterMap (fun i =>
    if 0 ≤ i ∧ i < (repos.length : Int) then repos[i.toNat]? else none)

/-- Line 204 of file_tools.py: the candidate inclusion list, the repositories
not excluded, in original order. -/
def selectedRepos (repos ignored : List String) : List String :=
  repos.filter (fun r => !decide (r ∈ ignored))

/-- Lines 202 to 204 of file_tools.py: parse a numeric choice into the
excluded list and the candidate inclusion list, or none on a ValueError. -/
def parseSelection (repos : List String) (choice : String) :
    Option (List String × List String) :=
  match parseIndices choice with
  | none => none
  | some idxs => some (ignoredRepos repos idxs, selectedRepos repos (ignoredRepos repos idxs))

/-- Method _select_repos of file_tools.py, lines 192 to 222, driven by a
finite script of input lines. Each loop iteration reads one choice line,
strips and lowercases it, and returns the empty list on the token all, the
whole list on the token none or empty input, and otherwise parses exclusion
indices: on a ValueError it re-prompts, and on success it asks for
confirmation unless the candidate is empty while the excluded list is not, in
which case it silently re-prompts. The confirmation answer, lowercased but not
stripped as at line 216, returns the candidate on y and re-prompts from
scratch on anything else. An exhausted script models end of input, on which
the blocking read raises and no selection is ever returned. -/
def selectLoop (repos : List String) : List String → Option (List String)
| [] => none
| line :: rest =>
  if pyLower (pyStrip line) = "all" then some []
  else if pyLower (pyStrip line) = "none" ∨ pyLower (pyStrip line) = "" then some repos
  else
    match parseSelection repos (pyLower (pyStrip line)) with
    | none => selectLoop repos rest
    | some (ign, sel) =>
      if sel ≠ [] ∨ ign = [] then
        match rest with
        | [] => none
        | conf :: rest2 =>
          if pyLower conf = "y" then some sel else selectLoop repos rest2
      else selectLoop repos rest

/-- Method _select_repos, lines 178 and 179: an empty dirty mapping returns
the empty list before any prompting. -/
def select_repos (repos : List String) (script : List String) : Option (List String) :=
  if repos = [] then some [] else selectLoop repos script

/-- Example behaviour for the two-repository scenario: staging fails for the
first repository and everything succeeds for the second. -/
def exBehAB : String → Except String Unit × Except String Unit :=
  fun p => if p = "/A" then (Except.error "boom", Except.ok ()) else (Except.ok (), Except.ok ())

theorem commitLoop_commit_mem (msg : String)
    (beh : String → Except String Unit × Except String Unit) (repos : List String)
    (p m : String) (h : GitCmd.commit p m ∈ (commitLoop msg beh repos).1) : m = msg := by
  induction repos with
  | nil => simp [commitLoop] at h
  | cons q qs ih =>
    rw [commitLoop] at h
    rcases List.mem_append.mp h with h1 | h1
    · cases hb : (beh q).1 with
      | error e => simp [commitOne, hb] at h1
      | ok u =>
        cases hc : (beh q).2 with
        | error e => simp [commitOne, hb, hc] at h1; exact h1.2
        | ok v => simp [commitOne, hb, hc] at h1; exact h1.2
    · exact ih h1

theorem commitLoop_length (msg : String)
    (beh : String → Except String Unit × Except String Unit) (repos : List String) :
    (commitLoop msg beh repos).2.length = repos.length := by
  induction repos with
  | nil => rfl
  | cons q qs ih => simp [commitLoop, ih]

theorem commitLoop_no_commit_of_stage_error (msg : String)
    (beh : String → Except String Unit × Except String Unit) (repos : List String)
    (p e : String) (hs : (beh p).1 = Except.error e) (m : String) :
    GitCmd.commit p m ∉ (commitLoop msg beh repos).1 := by
  induction repos with
  | nil => simp [commitLoop]
  | cons q qs ih =>
    rw [commitLoop]
    intro h
    rcases List.mem_append.mp h with h1 | h1
    · cases hb : (beh q).1 with
      | error e2 => simp [commitOne, hb] at h1
      | ok u =>
        cases hc : (beh q).2 with
        | error e2 =>
          simp [commitOne, hb, hc] at h1
          rw [h1.1] at hs; rw [hs] at hb; cases hb
        | ok v =>
          simp [commitOne, hb, hc] at h1
          rw [h1.1] at hs; rw [hs] at hb; cases hb
    · exact ih h1

theorem commitLoop_outcome_of_stage_error (msg : String)
    (beh : String → Except String Unit × Except String Unit) (repos : List String)
    (p : String) (o : RepoOutcome) (hmem : (p, o) ∈ (commitLoop msg beh repos).2)
    (e : String) (hs : (beh p).1 = Except.error e) : o = RepoOutcome.stageFailed e := by
  induction repos with
  | nil => simp [commitLoop] at hmem
  | cons q qs ih =>
    rw [commitLoop] at hmem
    rcases List.mem_cons.mp hmem with h1 | h1
    · have hq : p = q := congrArg Prod.fst h1
      have ho : o = (commitOne msg q (beh q).1 (beh q).2).2 := congrArg Prod.snd h1
      rw [← hq] at ho
      rw [ho, hs]
      rfl
    · exact ih h1

/-- Claim C1, counterexample: for a run on 2025-03-07, the commit invocation
receives the message with a space between the date and the word commit, and
never the claimed literal without a separator. -/
theorem commit_message_literal_counterexample :
    GitCmd.commit "/r" "20250307 commit for transfer"
        ∈ (commit_all "20250307" (fun _ => (Except.ok (), Except.ok ())) ["/r"]).1
    ∧ GitCmd.commit "/r" "20250307commit for transfer"
        ∉ (commit_all "20250307" (fun _ => (Except.ok (), Except.ok ())) ["/r"]).1 := by
  refine ⟨by decide, by decide⟩

/-- Claim C1, amended: every commit invocation issued during a run on local
date YYYYMMDD carries one and the same message, the date followed by a single
space and the words commit for transfer. -/
theorem commit_message_spaced_uniform (date_str : String)
    (beh : String → Except String Unit × Except String Unit) (repos : List String)
    (p m : String) (h : GitCmd.commit p m ∈ (commit_all date_str beh repos).1) :
    m = date_str ++ " commit for transfer" := by
  have h2 := commitLoop_commit_mem (commit_msg date_str) beh repos p m h
  rw [commit_msg] at h2
  exact h2

/-- Instance of the amended claim C1 on the date of the running example. -/
theorem commit_message_spaced_uniform_witness :
    "20250307 commit for transfer" = "20250307" ++ " commit for transfer" :=
  commit_message_spaced_uniform "20250307" (fun _ => (Except.ok (), Except.ok ()))
    ["/r"] "/r" "20250307 commit for transfer" (by decide)

/-- Claim C3: the commit loop records one outcome per selected repository and
never aborts early; a repository whose staging invocation fails is never the
target of a commit invocation and its recorded outcome is the staging failure
with the underlying error detail. -/
theorem commit_failure_isolated (msg : String)
    (beh : String → Except String Unit × Except String Unit) (repos : List String) :
    (commitLoop msg beh repos).2.length = repos.length
    ∧ (∀ p e, (beh p).1 = Except.error e →
        ∀ m, GitCmd.commit p m ∉ (commitLoop msg beh repos).1)
    ∧ (∀ p o, (p, o) ∈ (commitLoop msg beh repos).2 →
        ∀ e, (beh p).1 = Except.error e → o = RepoOutcome.stageFailed e) :=
  ⟨commitLoop_length msg beh repos,
   fun p e hs m => commitLoop_no_commit_of_stage_error msg beh repos p e hs m,
   fun p o hmem e hs => commitLoop_outcome_of_stage_error msg beh repos p o hmem e hs⟩

/-- Scenario of claim C3: staging fails for the first of two repositories; the
outcomes are a staging failure followed by a successful commit, the second
repository is still processed, and no commit invocation targets the first. -/
theorem commit_failure_isolated_witness :
    (commitLoop "m" exBehAB ["/A", "/B"]).2
      = [("/A", RepoOutcome.stageFailed "boom"), ("/B", RepoOutcome.committed)]
    ∧ (commitLoop "m" exBehAB ["/A", "/B"]).2.length = (["/A", "/B"] : List String).length
    ∧ GitCmd.commit "/A" "m" ∉ (commitLoop "m" exBehAB ["/A", "/B"]).1
    ∧ RepoOutcome.stageFailed "boom" = RepoOutcome.stageFailed "boom" :=
  ⟨by decide,
   (commit_failure_isolated "m" exBehAB ["/A", "/B"]).1,
   (commit_failure_isolated "m" exBehAB ["/A", "/B"]).2.1 "/A" "boom" (by decide) "m",
   (commit_failure_isolated "m" exBehAB ["/A", "/B"]).2.2 "/A"
     (RepoOutcome.stageFailed "boom") (by decide) "boom" (by decide)⟩

theorem scanRepos_keys (rs : List Repo) (m : List (String × String))
    (h : scanRepos rs = Except.ok m) (q s : String) (hm : (q, s) ∈ m) :
    ∃ r ∈ rs, r.path = q := by
  induction rs generalizing m with
  | nil =>
    rw [scanRepos] at h
    cases h
    simp at hm
  | cons r rs ih =>
    obtain ⟨p, g, st, cm⟩ := r
    cases g with
    | completed rc out =>
      rw [scanRepos] at h
      cases hrec : scanRepos rs with
      | error e => rw [hrec] at h; cases h
      | ok rest =>
        rw [hrec] at h
        simp only [Except.map] at h
        cases h
        by_cases hd : isDirtyText out = true
        · rw [if_pos hd] at hm
          rcases List.mem_cons.mp hm with h1 | h1
          · exact ⟨⟨p, .completed rc out, st, cm⟩, List.mem_cons_self _ _,
              (congrArg Prod.fst h1).symm⟩
          · obtain ⟨r2, hr2, hp2⟩ := ih rest hrec h1
            exact ⟨r2, List.mem_cons_of_mem _ hr2, hp2⟩
        · rw [if_neg hd] at hm
          obtain ⟨r2, hr2, hp2⟩ := ih rest hrec hm
          exact ⟨r2, List.mem_cons_of_mem _ hr2, hp2⟩
    | subprocessError msg =>
      rw [scanRepos] at h
      obtain ⟨r2, hr2, hp2⟩ := ih m h hm
      exact ⟨r2, List.mem_cons_of_mem _ hr2, hp2⟩
    | osError msg =>
      rw [scanRepos] at h
      cases h

/-- Claim C2, counterexample: a status invocation that completes with exit
status 1 is a failed invocation, yet check_uncommitted_changes reports the
repository as clean instead of signalling an error. -/
theorem classifier_error_clean_counterexample :
    check_uncommitted_changes (GitStatus.completed 1 "") = Except.ok false := by
  decide

/-- Claim C2, amended: a repository whose status invocation raises a
SubprocessError is skipped by the scanner, which continues with the remaining
repositories and never includes that repository in the dirty mapping; a
non-zero exit status, however, is not signalled as an error: the backup
classifier catches the resulting CalledProcessError and reports the
repository as clean. -/
theorem errored_repo_excluded (p msg : String) (st cm : Except String Unit)
    (rs : List Repo) (hfresh : ∀ r ∈ rs, r.path ≠ p) :
    scanRepos (⟨p, GitStatus.subprocessError msg, st, cm⟩ :: rs) = scanRepos rs
    ∧ (∀ m, scanRepos rs = Except.ok m → ∀ s, (p, s) ∉ m)
    ∧ (∀ rc out, rc ≠ 0 →
        check_uncommitted_changes (GitStatus.completed rc out) = Except.ok false) := by
  refine ⟨rfl, ?_, ?_⟩
  · intro m hm s hmem
    obtain ⟨r, hr, hpath⟩ := scanRepos_keys rs m hm p s hmem
    exact hfresh r hr hpath
  · intro rc out hrc
    rw [check_uncommitted_changes, if_neg hrc]

/-- Instance of the amended claim C2: a repository with a failing status
invocation disappears from the scan while its neighbour is still scanned, and
a non-zero exit is reported as clean. -/
theorem errored_repo_excluded_witness :
    scanRepos [⟨"/r", .subprocessError "status failed", .ok (), .ok ()⟩,
        ⟨"/s", .completed 0 "?? b\n", .ok (), .ok ()⟩]
      = scanRepos [⟨"/s", .completed 0 "?? b\n", .ok (), .ok ()⟩]
    ∧ ("/r", "x") ∉ [("/s", "?? b\n")]
    ∧ check_uncommitted_changes (GitStatus.completed 2 "x") = Except.ok false := by
  have h := errored_repo_excluded "/r" "status failed" (.ok ()) (.ok ())
    [⟨"/s", .completed 0 "?? b\n", .ok (), .ok ()⟩] (by intro r hr; simp at hr; rw [hr]; decide)
  exact ⟨h.1, h.2.1 [("/s", "?? b\n")] (by decide) "x", h.2.2 2 "x" (by decide)⟩

/-- Claim C4: a repository whose status query completed with exit status zero
is recorded in the scan result, keyed by its path with the raw status text,
exactly when the raw text stripped of surrounding whitespace is non-empty. -/
theorem dirty_iff_trimmed_nonempty (p out : String) (st cm : Except String Unit)
    (rs : List Repo) (m : List (String × String))
    (hfresh : ∀ r ∈ rs, r.path ≠ p)
    (h : scanRepos (⟨p, GitStatus.completed 0 out, st, cm⟩ :: rs) = Except.ok m) :
    (p, out) ∈ m ↔ pyStrip out ≠ "" := by
  rw [scanRepos] at h
  cases hrec : scanRepos rs with
  | error e => rw [hrec] at h; cases h
  | ok rest =>
    rw [hrec] at h
    simp only [Except.map] at h
    cases h
    by_cases hd : pyStrip out ≠ ""
    · rw [if_pos (by simp [isDirtyText, hd])]
      simp [hd]
    · rw [if_neg (by simp [isDirtyText, hd])]
      simp only [hd, iff_false]
      intro hmem
      obtain ⟨r, hr, hpath⟩ := scanRepos_keys rs rest hrec p out hmem
      exact hfresh r hr hpath

/-- Instance of claim C4: a repository holding only an untracked file has
non-empty porcelain output and is included in the scan result. -/
theorem dirty_iff_trimmed_nonempty_witness :
    ("/r", "?? notes.txt\n") ∈ [("/r", "?? notes.txt\n")]
    ∧ pyStrip "?? notes.txt\n" ≠ "" := by
  have h := dirty_iff_trimmed_nonempty "/r" "?? notes.txt\n" (.ok ()) (.ok ()) []
    [("/r", "?? notes.txt\n")] (by simp) (by decide)
  exact ⟨h.mpr (by decide), by decide⟩

theorem scanRepos_ok_of_no_osError (rs : List Repo)
    (h : ∀ r ∈ rs, r.git.isOsError = false) :
    ∃ m, scanRepos rs = Except.ok m := by
  induction rs with
  | nil => exact ⟨[], rfl⟩
  | cons r rs ih =>
    obtain ⟨p, g, st, cm⟩ := r
    have hr := h _ (List.mem_cons_self _ _)
    obtain ⟨m, hm⟩ := ih (fun r2 hr2 => h r2 (List.mem_cons_of_mem _ hr2))
    cases g with
    | completed rc out =>
      refine ⟨if isDirtyText out then (p, out) :: m else m, ?_⟩
      rw [scanRepos, hm]
      rfl
    | subprocessError msg => exact ⟨m, by rw [scanRepos]; exact hm⟩
    | osError msg => simp [GitStatus.isOsError] at hr

/-- Claim C8, counterexample: the scan root does not exist, yet the glob
yields no matches, the scan completes with an empty dirty mapping, and the
process exits with status zero, where the claim demands a non-zero exit in
exactly this situation. -/
theorem rootMissing_exit_counterexample :
    (World.mk false [⟨"/r", .completed 0 "?? a\n", .ok (), .ok ()⟩]).rootExists = false
    ∧ mainCommitAll "20250307"
        (World.mk false [⟨"/r", .completed 0 "?? a\n", .ok (), .ok ()⟩]) = 0 :=
  ⟨rfl, rfl⟩

/-- Claim C8, amended: the workflow exits with status zero whenever no status
invocation raises an uncaught exception, even when every selected repository
fails to stage or commit, and also when the scan root does not exist, since
the glob then yields nothing; there is no dedicated abort for a missing
root. -/
theorem exit_zero_unless_uncaught (date_str : String) (w : World)
    (h : ∀ r ∈ globGitDirs w, r.git.isOsError = false) :
    mainCommitAll date_str w = 0 := by
  obtain ⟨m, hm⟩ := scanRepos_ok_of_no_osError _ h
  rw [mainCommitAll, find_uncommitted_changes, hm]

/-- Instance of the amended claim C8: the root exists, the sole dirty
repository fails both staging and committing, and the exit status is still
zero. -/
theorem exit_zero_unless_uncaught_witness :
    mainCommitAll "20250307"
      (World.mk true [⟨"/r", .completed 0 "?? a\n", .error "sf", .error "cf"⟩]) = 0 :=
  exit_zero_unless_uncaught "20250307"
    (World.mk true [⟨"/r", .completed 0 "?? a\n", .error "sf", .error "cf"⟩]) (by decide)

theorem selectLoop_cons_all (repos : List String) (line : String) (rest : List String)
    (h : pyLower (pyStrip line) = "all") :
    selectLoop repos (line :: rest) = some [] := by
  simp [selectLoop, h]

theorem selectLoop_cons_noneempty (repos : List String) (line : String) (rest : List String)
    (h1 : pyLower (pyStrip line) ≠ "all")
    (h2 : pyLower (pyStrip line) = "none" ∨ pyLower (pyStrip line) = "") :
    selectLoop repos (line :: rest) = some repos := by
  simp only [selectLoop]
  rw [if_neg h1, if_pos h2]

theorem selectLoop_cons_invalid (repos : List String) (line : String) (rest : List String)
    (h1 : pyLower (pyStrip line) ≠ "all") (h2 : pyLower (pyStrip line) ≠ "none")
    (h3 : pyLower (pyStrip line) ≠ "")
    (hps : parseSelection repos (pyLower (pyStrip line)) = none) :
    selectLoop repos (line :: rest) = selectLoop repos rest := by
  simp only [selectLoop, hps]
  rw [if_neg h1, if_neg (by simp [h2, h3])]

theorem selectLoop_cons_confirm (repos : List String) (line conf : String)
    (rest : List String) (ign sel : List String)
    (h1 : pyLower (pyStrip line) ≠ "all") (h2 : pyLower (pyStrip line) ≠ "none")
    (h3 : pyLower (pyStrip line) ≠ "")
    (hps : parseSelection repos (pyLower (pyStrip line)) = some (ign, sel))
    (hguard : sel ≠ [] ∨ ign = []) :
    selectLoop repos (line :: conf :: rest)
      = if pyLower conf = "y" then some sel else selectLoop repos rest := by
  simp only [selectLoop, hps]
  rw [if_neg h1, if_neg (by simp [h2, h3]), if_pos hguard]

theorem selectLoop_cons_eof (repos : List String) (line : String) (ign sel : List String)
    (h1 : pyLower (pyStrip line) ≠ "all") (h2 : pyLower (pyStrip line) ≠ "none")
    (h3 : pyLower (pyStrip line) ≠ "")
    (hps : parseSelection repos (pyLower (pyStrip line)) = some (ign, sel))
    (hguard : sel ≠ [] ∨ ign = []) :
    selectLoop repos [line] = none := by
  simp only [selectLoop, hps]
  rw [if_neg h1, if_neg (by simp [h2, h3]), if_pos hguard]

theorem selectLoop_cons_emptycand (repos : List String) (line : String)
    (rest : List String) (ign : List String)
    (h1 : pyLower (pyStrip line) ≠ "all") (h2 : pyLower (pyStrip line) ≠ "none")
    (h3 : pyLower (pyStrip line) ≠ "")
    (hps : parseSelection repos (pyLower (pyStrip line)) = some (ign, []))
    (hign : ign ≠ []) :
    selectLoop repos (line :: rest) = selectLoop repos rest := by
  simp only [selectLoop, hps]
  rw [if_neg h1, if_neg (by simp [h2, h3]), if_neg (by simp [hign])]

theorem parseSelection_sel (repos : List String) (c : String) (ign sel : List String)
    (h : parseSelection repos c = some (ign, sel)) :
    sel = selectedRepos repos ign := by
  unfold parseSelection at h
  cases hp : parseIndices c with
  | none => rw [hp] at h; cases h
  | some idxs =>
    rw [hp] at h
    have h2 := Option.some.inj h
    have hig : ignoredRepos repos idxs = ign := congrArg Prod.fst h2
    have hse : selectedRepos repos (ignoredRepos repos idxs) = sel := congrArg Prod.snd h2
    rw [← hse, hig]

theorem selectedRepos_nil (repos : List String) : selectedRepos repos [] = repos := by
  simp [selectedRepos]

theorem selectLoop_retry_bad_lines (repos : List String) (bads rest : List String)
    (h : ∀ b ∈ bads, pyLower (pyStrip b) ≠ "all" ∧ pyLower (pyStrip b) ≠ "none" ∧
        pyLower (pyStrip b) ≠ "" ∧ parseSelection repos (pyLower (pyStrip b)) = none) :
    selectLoop repos (bads ++ rest) = selectLoop repos rest := by
  induction bads with
  | nil => rfl
  | cons b bs ih =>
    obtain ⟨h1, h2, h3, hps⟩ := h b (List.mem_cons_self _ _)
    rw [List.cons_append, selectLoop_cons_invalid repos b (bs ++ rest) h1 h2 h3 hps]
    exact ih (fun b2 hb2 => h b2 (List.mem_cons_of_mem _ hb2))

theorem selectLoop_ne_some_nil (repos : List String) (hne : repos ≠ []) :
    ∀ script, (∀ l ∈ script, pyLower (pyStrip l) ≠ "all") →
      selectLoop repos script ≠ some [] := by
  have main : ∀ n (script : List String), script.length ≤ n →
      (∀ l ∈ script, pyLower (pyStrip l) ≠ "all") →
      selectLoop repos script ≠ some [] := by
    intro n
    induction n with
    | zero =>
      intro script hlen _
      have hnil : script = [] := List.eq_nil_of_length_eq_zero (Nat.le_zero.mp hlen)
      subst hnil
      simp [selectLoop]
    | succ n ih =>
      intro script hlen hall
      cases script with
      | nil => simp [selectLoop]
      | cons line rest =>
        have hla := hall line (List.mem_cons_self _ _)
        by_cases hnone : pyLower (pyStrip line) = "none" ∨ pyLower (pyStrip line) = ""
        · rw [selectLoop_cons_noneempty repos line rest hla hnone]
          intro hc
          exact hne (Option.some.inj hc)
        · push_neg at hnone
          cases hps : parseSelection repos (pyLower (pyStrip line)) with
          | none =>
            rw [selectLoop_cons_invalid repos line rest hla hnone.1 hnone.2 hps]
            refine ih rest ?_ (fun l hl => hall l (List.mem_cons_of_mem _ hl))
            simp only [List.length_cons] at hlen
            omega
          | some pr =>
            obtain ⟨ign, sel⟩ := pr
            by_cases hguard : sel ≠ [] ∨ ign = []
            · cases rest with
              | nil =>
                rw [selectLoop_cons_eof repos line ign sel hla hnone.1 hnone.2 hps hguard]
                simp
              | cons conf rest2 =>
                rw [selectLoop_cons_confirm repos line conf rest2 ign sel hla hnone.1
                  hnone.2 hps hguard]
                by_cases hy : pyLower conf = "y"
                · rw [if_pos hy]
                  have hsel : sel ≠ [] := by
                    rcases hguard with hg | hg
                    · exact hg
                    · have hseq := parseSelection_sel repos _ ign sel hps
                      rw [hg, selectedRepos_nil] at hseq
                      rw [hseq]
                      exact hne
                  intro hc
                  exact hsel (Option.some.inj hc)
                · rw [if_neg hy]
                  refine ih rest2 ?_
                    (fun l hl => hall l (List.mem_cons_of_mem _ (List.mem_cons_of_mem _ hl)))
                  simp only [List.length_cons] at hlen
                  omega
            · push_neg at hguard
              obtain ⟨hsel, hign⟩ := hguard
              subst hsel
              rw [selectLoop_cons_emptycand repos line rest ign hla hnone.1 hnone.2 hps hign]
              refine ih rest ?_ (fun l hl => hall l (List.mem_cons_of_mem _ hl))
              simp only [List.length_cons] at hlen
              omega
  intro script hall
  exact main script.length script (Nat.le_refl _) hall

/-- Claim C5: on a non-empty dirty set, empty input or the token none returns
the whole dirty set, and the token all returns the empty selection, in both
cases immediately and independently of any further scripted input, so no
confirmation is ever consulted. -/
theorem dialog_all_none (repos : List String) (line : String) (rest : List String)
    (hne : repos ≠ []) :
    ((pyLower (pyStrip line) = "none" ∨ pyLower (pyStrip line) = "") →
        select_repos repos (line :: rest) = some repos)
    ∧ (pyLower (pyStrip line) = "all" →
        select_repos repos (line :: rest) = some []) := by
  constructor
  · intro h
    have hall : pyLower (pyStrip line) ≠ "all" := by
      rcases h with h | h <;> rw [h] <;> decide
    rw [select_repos, if_neg hne]
    exact selectLoop_cons_noneempty repos line rest hall h
  · intro h
    rw [select_repos, if_neg hne]
    exact selectLoop_cons_all repos line rest h

/-- Instance of claim C5 on a three-repository dirty set. -/
theorem dialog_all_none_witness :
    select_repos ["/a", "/b", "/c"] ["none"] = some ["/a", "/b", "/c"]
    ∧ select_repos ["/a", "/b", "/c"] ["all"] = some [] :=
  ⟨(dialog_all_none ["/a", "/b", "/c"] "none" [] (by decide)).1 (Or.inl (by decide)),
   (dialog_all_none ["/a", "/b", "/c"] "all" [] (by decide)).2 (by decide)⟩

/-- Claim C6: a choice whose tokens all convert as integers parses without
error; the excluded set holds exactly the repositories at a 1-based input
index within bounds, every out-of-range index being silently ignored, and the
candidate is the dirty list minus the excluded set. -/
theorem exclusion_index_semantics (repos : List String) (choice : String) (ns : List Int)
    (hp : parseInts (pySplitWs choice) = some ns) :
    parseSelection repos choice
      = some (ignoredRepos repos (ns.map (fun n => n - 1)),
          selectedRepos repos (ignoredRepos repos (ns.map (fun n => n - 1))))
    ∧ (∀ r, r ∈ ignoredRepos repos (ns.map (fun n => n - 1)) ↔
        ∃ n ∈ ns, 1 ≤ n ∧ n ≤ (repos.length : Int) ∧ repos[(n - 1).toNat]? = some r)
    ∧ (∀ r, r ∈ selectedRepos repos (ignoredRepos repos (ns.map (fun n => n - 1))) ↔
        r ∈ repos ∧ r ∉ ignoredRepos repos (ns.map (fun n => n - 1))) := by
  refine ⟨?_, ?_, ?_⟩
  · unfold parseSelection parseIndices
    rw [hp]
    rfl
  · intro r
    unfold ignoredRepos
    rw [List.mem_filterMap]
    constructor
    · rintro ⟨i, hi, hf⟩
      rw [List.mem_map] at hi
      obtain ⟨n, hn, rfl⟩ := hi
      by_cases hb : 0 ≤ n - 1 ∧ n - 1 < (repos.length : Int)
      · rw [if_pos hb] at hf
        exact ⟨n, hn, by omega, by omega, hf⟩
      · rw [if_neg hb] at hf
        cases hf
    · rintro ⟨n, hn, hn1, hn2, hg⟩
      refine ⟨n - 1, List.mem_map.mpr ⟨n, hn, rfl⟩, ?_⟩
      rw [if_pos ⟨by omega, by omega⟩]
      exact hg
  · intro r
    unfold selectedRepos
    simp [List.mem_filter]

/-- Instance of claim C6: the out-of-range input 5 on a three-repository set
parses, excludes nothing, and keeps all three candidates. -/
theorem exclusion_index_semantics_witness :
    parseSelection ["/a", "/b", "/c"] "5" = some ([], ["/a", "/b", "/c"]) :=
  (exclusion_index_semantics ["/a", "/b", "/c"] "5" [5] (by decide)).1.trans (by decide)

/-- Claim C7: at the confirmation step the answer y returns the candidate,
any other answer discards it and the dialog continues exactly as it would on
the remaining script with nothing remembered, and any number of malformed
numeric lines is consumed with no effect beyond a re-prompt. -/
theorem confirm_and_retry (repos : List String) (line conf : String) (rest : List String)
    (ign sel : List String)
    (h1 : pyLower (pyStrip line) ≠ "all") (h2 : pyLower (pyStrip line) ≠ "none")
    (h3 : pyLower (pyStrip line) ≠ "")
    (hps : parseSelection repos (pyLower (pyStrip line)) = some (ign, sel))
    (hguard : sel ≠ [] ∨ ign = []) :
    (pyLower conf = "y" → selectLoop repos (line :: conf :: rest) = some sel)
    ∧ (pyLower conf ≠ "y" →
        selectLoop repos (line :: conf :: rest) = selectLoop repos rest)
    ∧ (∀ bads rest2,
        (∀ b ∈ bads, pyLower (pyStrip b) ≠ "all" ∧ pyLower (pyStrip b) ≠ "none" ∧
          pyLower (pyStrip b) ≠ "" ∧ parseSelection repos (pyLower (pyStrip b)) = none) →
        selectLoop repos (bads ++ rest2) = selectLoop repos rest2) := by
  refine ⟨?_, ?_, fun bads rest2 hb => selectLoop_retry_bad_lines repos bads rest2 hb⟩
  · intro hy
    rw [selectLoop_cons_confirm repos line conf rest ign sel h1 h2 h3 hps hguard,
      if_pos hy]
  · intro hy
    rw [selectLoop_cons_confirm repos line conf rest ign sel h1 h2 h3 hps hguard,
      if_neg hy]

/-- Instance of claim C7, the documented scenario: excluding indices 1 and 3
from three repositories and confirming with y returns the second repository
alone. -/
theorem confirm_and_retry_witness :
    selectLoop ["/a", "/b", "/c"] ["1 3", "y"] = some ["/b"] :=
  (confirm_and_retry ["/a", "/b", "/c"] "1 3" "y" [] ["/a", "/c"] ["/b"]
    (by decide) (by decide) (by decide) (by decide) (by decide)).1 (by decide)

/-- Claim C10: a numeric exclusion that empties the candidate while excluding
something is silently re-prompted with no confirmation consumed, and on a
non-empty dirty set no script free of the token all can ever make the dialog
return the empty selection. -/
theorem empty_candidate_silent_retry (repos : List String) :
    (∀ line rest ign,
        pyLower (pyStrip line) ≠ "all" → pyLower (pyStrip line) ≠ "none" →
        pyLower (pyStrip line) ≠ "" →
        parseSelection repos (pyLower (pyStrip line)) = some (ign, []) →
        ign ≠ [] →
        selectLoop repos (line :: rest) = selectLoop repos rest)
    ∧ (repos ≠ [] →
        ∀ script, (∀ l ∈ script, pyLower (pyStrip l) ≠ "all") →
          select_repos repos script ≠ some []) := by
  constructor
  · intro line rest ign h1 h2 h3 hps hign
    exact selectLoop_cons_emptycand repos line rest ign h1 h2 h3 hps hign
  · intro hne script hall
    rw [select_repos, if_neg hne]
    exact selectLoop_ne_some_nil repos hne script hall

/-- Instance of claim C10: excluding the only repository is silently
re-prompted, and a script without the token all never yields the empty
selection. -/
theorem empty_candidate_silent_retry_witness :
    selectLoop ["/a"] ["1", "none"] = selectLoop ["/a"] ["none"]
    ∧ select_repos ["/a"] ["none"] ≠ some [] := by
  have h := empty_candidate_silent_retry ["/a"]
  refine ⟨h.1 "1" ["none"] ["/a"] (by decide) (by decide) (by decide) (by decide)
      (by decide),
    h.2 (by decide) ["none"] ?_⟩
  intro l hl
  rw [List.mem_singleton] at hl
  rw [hl]
  decide

theorem splitOnNl_ne_nil (l : List Char) : splitOnNl l ≠ [] := by
  induction l with
  | nil => simp [splitOnNl]
  | cons c cs ih =>
    rw [splitOnNl]
    by_cases hc : c = '\n'
    · rw [if_pos hc]
      simp
    · rw [if_neg hc]
      cases h : splitOnNl cs with
      | nil => simp
      | cons t ts => simp

theorem splitOnNl_headD (l : List Char) :
    (splitOnNl l).headD [] = l.takeWhile (fun c => c != '\n') := by
  induction l with
  | nil => simp [splitOnNl]
  | cons c cs ih =>
    rw [splitOnNl]
    by_cases hc : c = '\n'
    · rw [if_pos hc]
      simp [List.takeWhile_cons, hc]
    · rw [if_neg hc]
      cases h : splitOnNl cs with
      | nil => exact absurd h (splitOnNl_ne_nil cs)
      | cons t ts =>
        rw [h] at ih
        simp only [List.headD_cons] at ih
        simp [List.takeWhile_cons, hc, ih]

theorem splitOnNl_length_gt_one (l : List Char) :
    1 < (splitOnNl l).length ↔ '\n' ∈ l := by
  induction l with
  | nil => simp [splitOnNl]
  | cons c cs ih =>
    rw [splitOnNl]
    by_cases hc : c = '\n'
    · rw [if_pos hc]
      have hpos : 0 < (splitOnNl cs).length :=
        List.length_pos.mpr (splitOnNl_ne_nil cs)
      simp [hc]
      omega
    · rw [if_neg hc]
      cases h : splitOnNl cs with
      | nil => exact absurd h (splitOnNl_ne_nil cs)
      | cons t ts =>
        rw [h] at ih
        simp only [List.length_cons] at ih ⊢
        rw [List.mem_cons]
        constructor
        · intro hlt
          exact Or.inr (ih.mp hlt)
        · rintro (heq | hmem)
          · exact absurd heq.symm hc
          · exact ih.mpr hmem

/-- Claim C9, counterexample: the preview of a one-line raw text with a
leading space differs from the first line because the line is stripped, and a
raw text whose single line ends in a newline still receives the ellipsis. -/
theorem status_preview_counterexample :
    statusPreview " M a.txt" = "M a.txt"
    ∧ "M a.txt" ≠ " M a.txt"
    ∧ statusPreview "M a.txt\n" = "M a.txt ..." := by
  refine ⟨by decide, by decide, by decide⟩

/-- Claim C9, amended: the preview equals the first newline-separated field of
the raw status text stripped of surrounding whitespace, and the ellipsis
marker is appended exactly when the raw text contains a newline character,
including a sole terminating newline. -/
theorem status_preview_amended (raw : String) :
    statusPreview raw
      = pyStrip ⟨raw.data.takeWhile (fun c => c != '\n')⟩
        ++ (if '\n' ∈ raw.data then " ..." else "") := by
  unfold statusPreview pySplitNl
  cases h : splitOnNl raw.data with
  | nil => exact absurd h (splitOnNl_ne_nil raw.data)
  | cons t ts =>
    have hh := splitOnNl_headD raw.data
    have hl := splitOnNl_length_gt_one raw.data
    rw [h] at hh hl
    simp only [List.headD_cons] at hh
    simp only [List.map_cons, List.headD_cons, List.length_map, List.length_cons]
    rw [hh]
    by_cases hmem : '\n' ∈ raw.data
    · simp only [List.length_cons] at hl
      rw [if_pos (hl.mpr hmem), if_pos hmem]
    · simp only [List.length_cons] at hl
      rw [if_neg (fun hgt => hmem (hl.mp hgt)), if_neg hmem, String.append_empty]

end FileTools
